import Mathlib

/-!
Verification of the blob container library (`blob.py`): a shallow embedding
of the chunk codec (`Blob`), the group container (`BlobGroup`) and the
stream reader (`BlobFile.read` / `BlobFile.__init__`), together with
theorems settling the specification claims.

Conventions of the embedding:
* Python `bytes` values are `List Nat` (each element < 256 on the wire).
* Python `str` values are `List Char` (Unicode code points).
* Python `int` is `Int`; sizes that are always non-negative are `Nat`.
* A fallible operation returns `Except PyErr _`; a method that may mutate
  `self` returns the new object alongside its result.
* The byte stream is a `List Nat`; `fd.read(n)` is `take n` / `drop n`.
-/

/-- The literal messages passed to the exception constructors in `blob.py`. -/
inductive ErrMsg where
  | notABlobFile    -- 'Not a blob file'
  | oldBlobVersion  -- 'Old blob version'
  | wrongFileType   -- 'Wrong file type'
  | oldFileVersion  -- 'Old file version'
deriving DecidableEq

/-- The exceptions that the code in `blob.py` can raise: its two own
exception classes (`FileTypeError`, `VersionError`) plus the builtin Python
exceptions its operations can produce.  `recursionError` stands for Python's
`RecursionError` and is returned when the modelling fuel runs out. -/
inductive PyErr where
  | overflowError       -- int.to_bytes out of range
  | typeError           -- e.g. int.from_bytes(None, ...)
  | unicodeEncodeError  -- str.encode('ASCII') on non-ASCII text
  | unicodeDecodeError  -- bytes.decode() on invalid UTF-8
  | attributeError      -- attribute access on None
  | keyError            -- dict subscript miss
  | indexError          -- list subscript out of range
  | recursionError      -- recursion/loop fuel exhausted
  | fileTypeError (msg : ErrMsg)
  | versionError (msg : ErrMsg)
deriving DecidableEq

/-- The Python values a blob's `content` field can hold. -/
inductive PyVal where
  | none
  | bool (b : Bool)
  | int (n : Int)
  | str (s : List Char)
  | bytes (bs : List Nat)
deriving DecidableEq

/-- Python truthiness of a `PyVal` (`bool(v)`). -/
def pyTruthy : PyVal → Bool
  | .none => false
  | .bool b => b
  | .int n => n != 0
  | .str cs => !cs.isEmpty
  | .bytes bs => !bs.isEmpty

/-- The Python types that can be requested from `Blob.getAs` / stored in a
spec: `None`, `bool`, `int`, `str`, `bytes` and `list`.  `Dtype.none` stands
for the Python value `None` used in type position. -/
inductive Dtype where
  | none
  | bool
  | int
  | str
  | bytes
  | list
deriving DecidableEq

/-- `int.from_bytes(bs, byteorder='big')`: unsigned big-endian value. -/
def fromBytesBE (bs : List Nat) : Nat :=
  bs.foldl (fun a b => a * 256 + b) 0

/-- Big-endian byte string of `n % 256^w`, exactly `w` bytes long. -/
def natToBytesBE : Nat → Nat → List Nat
  | _, 0 => []
  | n, w + 1 => natToBytesBE (n / 256) w ++ [n % 256]

/-- `v.to_bytes(w, byteorder='big', signed=True)`: the two's-complement
big-endian encoding, `none` modelling the `OverflowError` raised when `v`
is outside `[-2^(8w-1), 2^(8w-1))`.  (Written by cases on the sign of `v`:
a non-negative `n` is in range iff `n < 2^(8w-1)` and encodes as itself, a
negative `-(m+1)` is in range iff `m < 2^(8w-1)` and encodes as
`2^(8w) - (m+1)`, which is exactly `v mod 2^(8w)`.) -/
def toBytesSigned (v : Int) (w : Nat) : Option (List Nat) :=
  if w = 0 then
    (if v = 0 then some [] else none)
  else
    match v with
    | .ofNat n =>
      if n < 2 ^ (8 * w - 1) then some (natToBytesBE n w) else none
    | .negSucc m =>
      if m < 2 ^ (8 * w - 1) then some (natToBytesBE (2 ^ (8 * w) - (m + 1)) w)
      else none

/-- `n.to_bytes(w, byteorder='big')` (unsigned, the default): `none` models
the `OverflowError` raised when `n` does not fit in `w` bytes. -/
def toBytesUnsigned (n : Nat) (w : Nat) : Option (List Nat) :=
  if n < 256 ^ w then some (natToBytesBE n w) else none

/-- Lower-case hexadecimal digit, as used by Python's `\xhh` escapes. -/
def hexDigit (n : Nat) : Char :=
  if n < 10 then Char.ofNat (48 + n) else Char.ofNat (87 + n)

/-- The rendering of one byte inside `repr` of a `bytes` object, given the
quote character `q` chosen for the literal. -/
def byteReprChar (q : Nat) (b : Nat) : List Char :=
  if b = 92 then ['\\', '\\']
  else if b = q then ['\\', Char.ofNat q]
  else if b = 9 then ['\\', 't']
  else if b = 10 then ['\\', 'n']
  else if b = 13 then ['\\', 'r']
  else if 32 ≤ b ∧ b < 127 then [Char.ofNat b]
  else ['\\', 'x', hexDigit (b / 16), hexDigit (b % 16)]

/-- `str(bs)` for a `bytes` object `bs`: the `b'...'` literal produced by
Python's `repr`, which switches to double quotes when the data contains a
single quote but no double quote. -/
def bytesRepr (bs : List Nat) : List Char :=
  let q : Nat := if bs.contains 39 ∧ ¬ bs.contains 34 then 34 else 39
  'b' :: Char.ofNat q :: (bs.flatMap (byteReprChar q) ++ [Char.ofNat q])

/-- UTF-8 encoding of one Unicode scalar value (total: Lean's `Char` only
holds valid scalar values, as does a Python `str` built from text). -/
def utf8EncodeChar (c : Char) : List Nat :=
  let n := c.toNat
  if n < 0x80 then [n]
  else if n < 0x800 then [0xC0 + n / 64, 0x80 + n % 64]
  else if n < 0x10000 then [0xE0 + n / 4096, 0x80 + (n / 64) % 64, 0x80 + n % 64]
  else [0xF0 + n / 262144, 0x80 + (n / 4096) % 64, 0x80 + (n / 64) % 64, 0x80 + n % 64]

/-- `s.encode()`: UTF-8 encoding of a string. -/
def utf8Encode (cs : List Char) : List Nat :=
  cs.flatMap utf8EncodeChar

/-- Is `b` a UTF-8 continuation byte? -/
def isCont (b : Nat) : Bool :=
  0x80 ≤ b ∧ b ≤ 0xBF

/-- Decode one UTF-8 sequence whose first byte is `b1`, returning the decoded
character and the bytes remaining after the sequence.  Follows the strict
(CPython) decoder: overlong forms, surrogates and out-of-range values are
rejected. -/
def utf8DecodeOne (b1 : Nat) (rest : List Nat) : Option (Char × List Nat) :=
  if b1 < 0x80 then some (Char.ofNat b1, rest)
  else if 0xC2 ≤ b1 ∧ b1 ≤ 0xDF then
    match rest with
    | b2 :: r =>
      if isCont b2 then some (Char.ofNat ((b1 - 0xC0) * 64 + (b2 - 0x80)), r) else none
    | [] => none
  else if 0xE0 ≤ b1 ∧ b1 ≤ 0xEF then
    match rest with
    | b2 :: b3 :: r =>
      let lo2 := if b1 = 0xE0 then 0xA0 else 0x80
      let hi2 := if b1 = 0xED then 0x9F else 0xBF
      if (lo2 ≤ b2 ∧ b2 ≤ hi2) ∧ isCont b3 then
        some (Char.ofNat ((b1 - 0xE0) * 4096 + (b2 - 0x80) * 64 + (b3 - 0x80)), r)
      else none
    | _ => none
  else if 0xF0 ≤ b1 ∧ b1 ≤ 0xF4 then
    match rest with
    | b2 :: b3 :: b4 :: r =>
      let lo2 := if b1 = 0xF0 then 0x90 else 0x80
      let hi2 := if b1 = 0xF4 then 0x8F else 0xBF
      if (lo2 ≤ b2 ∧ b2 ≤ hi2) ∧ isCont b3 ∧ isCont b4 then
        some (Char.ofNat ((b1 - 0xF0) * 262144 + (b2 - 0x80) * 4096 +
              (b3 - 0x80) * 64 + (b4 - 0x80)), r)
      else none
    | _ => none
  else none

/-- Fuel-driven UTF-8 decoding loop; every step consumes at least one byte,
so fuel equal to the byte count always suffices. -/
def utf8DecodeAux : Nat → List Nat → Option (List Char)
  | _, [] => some []
  | 0, _ :: _ => none
  | f + 1, b :: rest =>
    match utf8DecodeOne b rest with
    | Option.none => none
    | some (c, rem) =>
      match utf8DecodeAux f rem with
      | Option.none => none
      | some cs => some (c :: cs)

/-- `bs.decode()`: strict UTF-8 decoding; `none` models `UnicodeDecodeError`. -/
def utf8Decode (bs : List Nat) : Option (List Char) :=
  utf8DecodeAux bs.length bs

/-- The `Blob` class: a four-character signature, the `content` payload (raw
or converted), the `contentRaw` bytes as written on disk (`Option.none` when
absent), and the on-disk `size` in bytes. -/
structure Blob where
  sig : List Char
  content : PyVal
  contentRaw : Option (List Nat)
  size : Nat
deriving DecidableEq

/-- The `dtype is int` branch of `Blob.getAs`:
`int.from_bytes(self.contentRaw, byteorder='big')`.  Passing `None` raises
`TypeError`. -/
def Blob.getAsIntVal (b : Blob) : Except PyErr Int :=
  match b.contentRaw with
  | some bs => .ok ((fromBytesBE bs : Nat) : Int)
  | none => .error .typeError

/-- `Blob.getAs(dtype)`: return the payload as the given type.  The second
component of the result is `self` after the call (the method never assigns
to `self`).  The `str` branch wraps `contentRaw.decode()` in a bare
`try/except`: a `UnicodeDecodeError` — or the `AttributeError` from
`None.decode()` — falls back to `str(self.contentRaw)`. -/
def Blob.getAs (b : Blob) (dtype : Dtype) : Except PyErr (PyVal × Blob) :=
  match dtype with
  | .int =>
    (match b.getAsIntVal with
     | .error e => .error e
     | .ok v => .ok (.int v, b))
  | .str =>
    .ok (.str (match b.contentRaw with
      | some bs =>
        (match utf8Decode bs with
         | some cs => cs
         | Option.none => bytesRepr bs)
      | Option.none => "None".toList), b)
  | .bytes =>
    .ok ((match b.contentRaw with
      | some bs => PyVal.bytes bs
      | Option.none => PyVal.none), b)
  | .bool =>
    -- bool(self.getAs(int))
    (match b.getAsIntVal with
     | .error e => .error e
     | .ok v => .ok (.bool (v != 0), b))
  | .none => .ok (.none, b)
  | .list =>
    -- no branch matches: falls through to `return self.contentRaw`
    .ok ((match b.contentRaw with
      | some bs => PyVal.bytes bs
      | Option.none => PyVal.none), b)

/-- `Blob.convert(dtype)`: set `self.content` to `getAs(dtype)` and return
it (result value alongside the updated object). -/
def Blob.convert (b : Blob) (dtype : Dtype) : Except PyErr (PyVal × Blob) :=
  match b.getAs dtype with
  | .error e => .error e
  | .ok (v, b1) => .ok (v, { b1 with content := v })

/-- `Blob.__init__(sig, content, size, dtype)`.  The branch order of the
source is kept: `bytes` is tested first, then `int` — and in Python
`isinstance(x, int)` is true for `bool` values as well, so boolean content
takes the integer branch (default width 4) and the `elif isinstance(content,
bool)` branch of the source is unreachable.  `dtype` defaults to `Dtype.none`
(Python `None`), which skips the final conversion because `if dtype:` is
false for `None`. -/
def mkBlob (sig : List Char) (content : PyVal) (size? : Option Nat)
    (dtype : Dtype) : Except PyErr Blob :=
  let rawAndSize : Except PyErr (Option (List Nat) × Option Nat) :=
    match content, size? with
    | .bytes bs, s? => .ok (some bs, s?)
    | .int n, s? =>
      let s := s?.getD 4
      (match toBytesSigned n s with
       | some bs => .ok (some bs, some s)
       | Option.none => .error .overflowError)
    | .bool b, s? =>
      -- taken via `isinstance(content, int)`; `content.to_bytes` uses the
      -- integer value of the bool
      let s := s?.getD 4
      (match toBytesSigned (if b then 1 else 0) s with
       | some bs => .ok (some bs, some s)
       | Option.none => .error .overflowError)
    | .str cs, s? => .ok (some (utf8Encode cs), s?)
    | .none, _ => .ok (none, some 0)
  match rawAndSize with
  | .error e => .error e
  | .ok (raw, sz?) =>
    let size := match sz? with
      | some s => s
      | Option.none => (raw.getD []).length  -- len(self.contentRaw)
    let b : Blob := ⟨sig, content, raw, size⟩
    if dtype = Dtype.none then .ok b
    else
      match b.convert dtype with
      | .error e => .error e
      | .ok (_, b1) => .ok b1

/-- `s.encode('ASCII')`: `UnicodeEncodeError` on any non-ASCII character. -/
def encodeAscii (cs : List Char) : Except PyErr (List Nat) :=
  if cs.all (fun c => c.toNat < 128) then .ok (cs.map Char.toNat)
  else .error .unicodeEncodeError

/-- `Blob.encode()`: 4 ASCII signature bytes, 4 big-endian size bytes, then
the payload iff `self.size` is nonzero (`bytearray.extend(None)` would raise
`TypeError`). -/
def Blob.encode (b : Blob) : Except PyErr (List Nat) :=
  match encodeAscii b.sig with
  | .error e => .error e
  | .ok sigB =>
    match toBytesUnsigned b.size 4 with
    | Option.none => .error .overflowError
    | some sizeB =>
      if b.size ≠ 0 then
        match b.contentRaw with
        | some bs => .ok (sigB ++ sizeB ++ bs)
        | Option.none => .error .typeError
      else .ok (sigB ++ sizeB)

/-- `Blob.__int__`: return `content` if it is an `int` (which, in Python,
includes `bool`), otherwise `getAs(int)`. -/
def pyIntOfBlob (b : Blob) : Except PyErr Int :=
  match b.content with
  | .int n => .ok n
  | .bool bo => .ok (if bo then 1 else 0)
  | _ => b.getAsIntVal

/-- A decoded unit: either a plain `Blob` or a `BlobGroup`.  A `BlobGroup`
is-a `Blob` (its header fields, built by `super().__init__`) that also owns
`children` (the `data` list of `UserList`), the lazily built signature
`dict`, and an optional `terminator`.  Children are `Option BUnit` because
`BlobFile.read` appends its own result — which is Python `None` at
end-of-stream — without checking. -/
inductive BUnit where
  | blob (b : Blob)
  | group (base : Blob) (children : List (Option BUnit))
      (dict : List (List Char × Option BUnit)) (terminator : Option BUnit)

/-- The `Blob` part of a unit (for a group, the header fields written by
`super().__init__`). -/
def BUnit.toBlobView : BUnit → Blob
  | .blob b => b
  | .group base _ _ _ => base

/-- `unit.sig`. -/
def BUnit.sig (u : BUnit) : List Char := u.toBlobView.sig

/-- `unit.content`. -/
def BUnit.content (u : BUnit) : PyVal := u.toBlobView.content

/-- First-match lookup in an insertion-ordered association list (the order
Python dicts preserve). -/
def assocLookup {β : Type} (d : List (List Char × β)) (k : List Char) : Option β :=
  match d with
  | [] => none
  | (k', v) :: rest => if k' = k then some v else assocLookup rest k

/-- `d.setdefault(k, v)`: insert `(k, v)` at the end iff `k` is absent. -/
def dictSetdefault {β : Type} (d : List (List Char × β)) (k : List Char) (v : β) :
    List (List Char × β) :=
  if (assocLookup d k).isSome then d else d ++ [(k, v)]

/-- The loop body of `BlobGroup.genDict`: scan the children once, keeping
the first child seen for each signature.  `blob.sig` on a `None` child
raises `AttributeError`. -/
def buildDict : List (Option BUnit) → List (List Char × Option BUnit) →
    Except PyErr (List (List Char × Option BUnit))
  | [], acc => .ok acc
  | Option.none :: _, _ => .error .attributeError
  | some u :: rest, acc => buildDict rest (dictSetdefault acc u.sig (some u))

/-- `BlobGroup.genDict()`: build the signature dictionary, but only when it
is still empty.  (Not defined on a plain `Blob`.) -/
def BUnit.genDict : BUnit → Except PyErr BUnit
  | .group base cs [] t =>
    (match buildDict cs [] with
     | .error e => .error e
     | .ok d1 => .ok (.group base cs d1 t))
  | .group base cs d t => .ok (.group base cs d t)
  | .blob _ => .error .attributeError

/-- `BlobGroup.clearDict()`: reset the dictionary lookup table. -/
def BUnit.clearDict : BUnit → BUnit
  | .group base cs _ t => .group base cs [] t
  | .blob b => .blob b

/-- `key in group` (`BlobGroup.__contains__`): builds the dict on first use.
Returns the answer together with the (possibly updated) group. -/
def BUnit.pyContains (g : BUnit) (k : List Char) : Except PyErr (Bool × BUnit) :=
  match g.genDict with
  | .error e => .error e
  | .ok g1 =>
    match g1 with
    | .group _ _ d _ => .ok ((assocLookup d k).isSome, g1)
    | .blob _ => .error .attributeError

/-- `group[k]` for a string subscript (`BlobGroup.__getitem__`): builds the
dict on first use; a missing key raises `KeyError`. -/
def BUnit.getItemSig (g : BUnit) (k : List Char) :
    Except PyErr (Option BUnit × BUnit) :=
  match g.genDict with
  | .error e => .error e
  | .ok g1 =>
    match g1 with
    | .group _ _ d _ =>
      (match assocLookup d k with
       | some v => .ok (v, g1)
       | Option.none => .error .keyError)
    | .blob _ => .error .attributeError

/-- `group[i]` for an integer subscript: `super().__getitem__(i)` goes
straight to the live `data` list. -/
def BUnit.getItemIdx (g : BUnit) (i : Nat) :
    Except PyErr (Option BUnit × BUnit) :=
  match g with
  | .group _ cs _ _ =>
    (match cs.get? i with
     | some v => .ok (v, g)
     | Option.none => .error .indexError)
  | .blob _ => .error .attributeError

/-- `group.keys()`: builds the dict on first use, then lists its keys. -/
def BUnit.pyKeys (g : BUnit) : Except PyErr (List (List Char) × BUnit) :=
  match g.genDict with
  | .error e => .error e
  | .ok g1 =>
    match g1 with
    | .group _ _ d _ => .ok (d.map Prod.fst, g1)
    | .blob _ => .error .attributeError

/-- `group.append(child)` (inherited from `UserList`): appends to the live
`data` list and touches nothing else. -/
def BUnit.appendChild (g : BUnit) (c : Option BUnit) : BUnit :=
  match g with
  | .group base cs d t => .group base (cs ++ [c]) d t
  | .blob b => .blob b

/-- A value of the caller-supplied spec dictionary: a Python type (scalar
type or `list`), a literal `int` (fixed child count), or a `str` (terminator
signature).  A spec entry whose value is Python `None` is
`SpecVal.pytype Dtype.none` — `dict.get` makes it indistinguishable from an
absent key. -/
inductive SpecVal where
  | pytype (t : Dtype)
  | count (n : Nat)
  | marker (sig : List Char)
deriving DecidableEq

/-- The spec: a mapping from 4-character signature to `SpecVal`. -/
abbrev Spec := List (List Char × SpecVal)

/-- The `for b in self.data: output.extend(b.encode())` loop of
`BlobGroup.encode`, abstracted over the child encoder `enc`; a `None`
child has no `encode` attribute. -/
def encodeChildrenF (enc : BUnit → Except PyErr (List Nat)) :
    List (Option BUnit) → Except PyErr (List Nat)
  | [] => .ok []
  | Option.none :: _ => .error .attributeError
  | some u :: rest =>
    match enc u with
    | .error e => .error e
    | .ok a =>
      match encodeChildrenF enc rest with
      | .error e => .error e
      | .ok b => .ok (a ++ b)

/-- `encode()` on a unit.  For a group (`BlobGroup.encode`), the opening
chunk is a fresh `Blob(self.sig, len(self.data))` — the child count —
followed by each child's own encoding, in order; the group's stored
`content` is never written.  `fuel` bounds the group nesting depth
(Python's `RecursionError`); encoding a plain blob consumes none. -/
def BUnit.encode : Nat → BUnit → Except PyErr (List Nat)
  | _, .blob b => b.encode
  | 0, .group _ _ _ _ => .error .recursionError
  | fuel + 1, .group base cs _ _ =>
    match mkBlob base.sig (.int (Int.ofNat cs.length)) none Dtype.none with
    | .error e => .error e
    | .ok header =>
      match header.encode with
      | .error e => .error e
      | .ok hB =>
        match encodeChildrenF (BUnit.encode fuel) cs with
        | .error e => .error e
        | .ok cB => .ok (hB ++ cB)
termination_by structural fuel _ => fuel

/-- `BlobGroup.__init__(sig, children, content)`: header fields from
`super().__init__(sig, content)`, the given children, an empty dict and no
terminator. -/
def mkBlobGroup (sig : List Char) (children : List (Option BUnit))
    (content : PyVal) : Except PyErr BUnit :=
  match mkBlob sig content none Dtype.none with
  | .error e => .error e
  | .ok base => .ok (.group base children [] none)

/-- The `for i in range(n): grp.append(self.read())` loop of
`BlobFile.read`, abstracted over the recursive reader `rd`. -/
def readCountF (rd : List Nat → Except PyErr (Option BUnit × List Nat)) :
    Nat → List Nat → Except PyErr (List (Option BUnit) × List Nat)
  | 0, s => .ok ([], s)
  | n + 1, s =>
    match rd s with
    | .error e => .error e
    | .ok (u, s1) =>
      match readCountF rd n s1 with
      | .error e => .error e
      | .ok (cs, s2) => .ok (u :: cs, s2)

/-- The `while blob.sig != btype:` loop of `BlobFile.read`, abstracted over
the recursive reader `rd`.  At end-of-stream `rd` yields Python `None` and
`None.sig` raises `AttributeError`.  The loop is driven by fuel; Python's
own loop always terminates because every decoded unit consumes input. -/
def readUntilF (rd : List Nat → Except PyErr (Option BUnit × List Nat))
    (msig : List Char) :
    Nat → List Nat → Except PyErr (List (Option BUnit) × BUnit × List Nat)
  | 0, _ => .error .recursionError
  | fuel + 1, s =>
    match rd s with
    | .error e => .error e
    | .ok (Option.none, _) => .error .attributeError
    | .ok (some u, s1) =>
      if u.sig = msig then .ok ([], u, s1)
      else
        match readUntilF rd msig fuel s1 with
        | .error e => .error e
        | .ok (cs, t, s2) => .ok (some u :: cs, t, s2)

/-- `Blob(sig, data)`'s `content` argument in `BlobFile.read`: the payload
bytes, or Python `None` when the declared size was zero. -/
def pvOfData : Option (List Nat) → PyVal
  | some bs => .bytes bs
  | Option.none => .none

/-- The tail of `BlobFile.read` after `blob = Blob(sig, data)`: the
`btype = self.spec.get(sig)` dispatch.  `rd` is the recursive `self.read`
(at one less fuel), `fuel` bounds the terminator loop, `size` is the
declared size read from the wire, and `s3` the remaining stream. -/
def BFdispatch (spec : Spec) (rd : List Nat → Except PyErr (Option BUnit × List Nat))
    (fuel : Nat) (sig : List Char) (size : Nat) (blob : Blob) (s3 : List Nat) :
    Except PyErr (Option BUnit × List Nat) :=
  match assocLookup spec sig with
  | some (SpecVal.pytype Dtype.list) =>
    -- group, length specified by the opening blob
    (match pyIntOfBlob blob with
     | .error e => .error e
     | .ok n =>
       match mkBlob blob.sig PyVal.none none Dtype.none with
       | .error e => .error e
       | .ok base =>
         match readCountF rd n.toNat s3 with
         | .error e => .error e
         | .ok (cs, s4) => .ok (some (.group base cs [] none), s4))
  | some (SpecVal.count n) =>
    -- group of a fixed length; header content kept verbatim
    (match mkBlob blob.sig blob.content none Dtype.none with
     | .error e => .error e
     | .ok base =>
       match readCountF rd n s3 with
       | .error e => .error e
       | .ok (cs, s4) => .ok (some (.group base cs [] none), s4))
  | some (SpecVal.marker msig) =>
    -- group with an end marker; header content kept verbatim
    (match mkBlob blob.sig blob.content none Dtype.none with
     | .error e => .error e
     | .ok base =>
       match readUntilF rd msig fuel s3 with
       | .error e => .error e
       | .ok (cs, t, s4) => .ok (some (.group base cs [] (some t)), s4))
  | some (SpecVal.pytype t) =>
    -- single entity with a declared scalar type
    if size ≠ 0 ∧ t ≠ Dtype.none then
      match blob.convert t with
      | .error e => .error e
      | .ok (_, blob1) => .ok (some (.blob blob1), s3)
    else .ok (some (.blob blob), s3)
  | Option.none => .ok (some (.blob blob), s3)

/-- `BlobFile.read()`: read the next unit from the stream.  Returns the
end-of-stream sentinel (`Option.none`) when no signature byte is available;
otherwise reads the 4 signature bytes, the 4 big-endian size bytes and
`size` payload bytes (`fd.read` yields fewer bytes at end-of-stream without
complaint), builds the `Blob`, and dispatches on the spec entry for its
signature via `BFdispatch`: `list` → length-prefixed group (`int(blob)`
children), a literal `int n` → fixed-count group preserving the header
content, a `str` → terminator-delimited group preserving the header content,
any other type → scalar conversion when the declared size is nonzero.
`fuel` bounds the recursion depth (Python's `RecursionError`). -/
def BFread (spec : Spec) : Nat → List Nat → Except PyErr (Option BUnit × List Nat)
  | 0, _ => .error .recursionError
  | fuel + 1, s =>
    let sigraw := s.take 4
    if sigraw = [] then .ok (none, s)  -- EOF
    else
      match utf8Decode sigraw with
      | Option.none => .error .unicodeDecodeError
      | some sig =>
        let s1 := s.drop 4
        let size := fromBytesBE (s1.take 4)
        let s2 := s1.drop 4
        let data : Option (List Nat) := if size ≠ 0 then some (s2.take size) else none
        let s3 := if size ≠ 0 then s2.drop size else s2
        match mkBlob sig (pvOfData data) none Dtype.none with
        | .error e => .error e
        | .ok blob => BFdispatch spec (BFread spec fuel) fuel sig size blob s3

/-- `bool(unit)` (`Blob.__bool__`, inherited by `BlobGroup`): truthiness of
`int(self)`. -/
def pyBoolOfUnit (u : BUnit) : Except PyErr Bool :=
  match pyIntOfBlob u.toBlobView with
  | .error e => .error e
  | .ok v => .ok (v != 0)

/-- `if unit and unit.content: unit.convert(int)` — the post-negotiation
normalisation applied to each header blob (lines 321–322 of the source). -/
def pyCondConvertInt (u : BUnit) : Except PyErr BUnit :=
  match pyBoolOfUnit u with
  | .error e => .error e
  | .ok b =>
    if b && pyTruthy u.content then
      match u with
      | .blob bl =>
        (match bl.convert Dtype.int with
         | .error e => .error e
         | .ok (_, bl1) => .ok (.blob bl1))
      | .group base cs d t =>
        (match base.convert Dtype.int with
         | .error e => .error e
         | .ok (_, base1) => .ok (.group base1 cs d t))
    else .ok u

/-- `BlobFile.__init__` on a readable stream with a `filetype` requested
(header negotiation): read the magic chunk, whose signature must be `BLOB`
(`FileTypeError 'Not a blob file'` otherwise); if `blobver` was requested
and the chunk carries truthy content, a decoded value strictly below
`blobver` is `VersionError 'Old blob version'`; read the file-type chunk,
whose signature must equal `filetype` (`FileTypeError 'Wrong file type'`);
if `version` was requested and that chunk carries truthy content, a decoded
value strictly above `version` is `VersionError 'Old file version'`.
Returns the two header units (after the conditional in-place `convert(int)`)
and the remaining stream. -/
def openRead (spec : Spec) (filetype : List Char) (version blobver : Option Int)
    (fuel : Nat) (s : List Nat) : Except PyErr (BUnit × BUnit × List Nat) :=
  match BFread spec fuel s with
  | .error e => .error e
  | .ok (Option.none, _) => .error .attributeError  -- None.sig
  | .ok (some bh, s1) =>
    if bh.sig ≠ "BLOB".toList then .error (.fileTypeError .notABlobFile)
    else
      let chk1 : Except PyErr Unit :=
        match blobver with
        | some bv =>
          if pyTruthy bh.content then
            match bh.toBlobView.getAsIntVal with
            | .error e => .error e
            | .ok v => if v < bv then .error (.versionError .oldBlobVersion) else .ok ()
          else .ok ()
        | Option.none => .ok ()
      match chk1 with
      | .error e => .error e
      | .ok _ =>
        match BFread spec fuel s1 with
        | .error e => .error e
        | .ok (Option.none, _) => .error .attributeError  -- None.sig
        | .ok (some hd, s2) =>
          if hd.sig ≠ filetype then .error (.fileTypeError .wrongFileType)
          else
            let chk2 : Except PyErr Unit :=
              match version with
              | some v0 =>
                if pyTruthy hd.content then
                  match hd.toBlobView.getAsIntVal with
                  | .error e => .error e
                  | .ok v => if v > v0 then .error (.versionError .oldFileVersion) else .ok ()
                else .ok ()
              | Option.none => .ok ()
            match chk2 with
            | .error e => .error e
            | .ok _ =>
              match pyCondConvertInt bh with
              | .error e => .error e
              | .ok bh1 =>
                match pyCondConvertInt hd with
                | .error e => .error e
                | .ok hd1 => .ok (bh1, hd1, s2)

/-! ## Basic lemmas about the byte codecs -/

theorem fromBytesBE_append_byte (xs : List Nat) (b : Nat) :
    fromBytesBE (xs ++ [b]) = 256 * fromBytesBE xs + b := by
  simp [fromBytesBE, List.foldl_append, Nat.mul_comm]

theorem natToBytesBE_length (n w : Nat) : (natToBytesBE n w).length = w := by
  induction w generalizing n with
  | zero => simp [natToBytesBE]
  | succ w ih => simp [natToBytesBE, ih]

theorem fromBytesBE_natToBytesBE (n w : Nat) (h : n < 256 ^ w) :
    fromBytesBE (natToBytesBE n w) = n := by
  induction w generalizing n with
  | zero =>
    interval_cases n
    simp [natToBytesBE, fromBytesBE]
  | succ w ih =>
    have hd : n / 256 < 256 ^ w := by
      rw [Nat.div_lt_iff_lt_mul (by norm_num)]
      calc n < 256 ^ (w + 1) := h
        _ = 256 ^ w * 256 := by ring
    rw [natToBytesBE, fromBytesBE_append_byte, ih _ hd]
    omega

theorem utf8DecodeOne_ascii (b : Nat) (rest : List Nat) (h : b < 128) :
    utf8DecodeOne b rest = some (Char.ofNat b, rest) := by
  simp [utf8DecodeOne, h]

theorem utf8DecodeAux_ascii (cs : List Char) (f : Nat)
    (hascii : ∀ c ∈ cs, c.toNat < 128) (hf : cs.length ≤ f) :
    utf8DecodeAux f (cs.map Char.toNat) = some cs := by
  induction cs generalizing f with
  | nil => simp [utf8DecodeAux]
  | cons c cs ih =>
    match f with
    | 0 => simp at hf
    | f + 1 =>
      have hc : c.toNat < 128 := hascii c (by simp)
      simp only [List.map_cons, utf8DecodeAux,
        utf8DecodeOne_ascii _ _ hc]
      rw [ih f (fun d hd => hascii d (by simp [hd])) (by simpa using hf)]
      simp [Char.ofNat_toNat]

theorem utf8Decode_ascii (cs : List Char) (hascii : ∀ c ∈ cs, c.toNat < 128) :
    utf8Decode (cs.map Char.toNat) = some cs := by
  unfold utf8Decode
  rw [List.length_map]
  exact utf8DecodeAux_ascii cs cs.length hascii le_rfl

/-! ## Wire-form blobs and reading them back -/

/-- A blob whose fields are exactly what `BlobFile.read` produces for a
scalar chunk without a spec conversion: a 4-character ASCII signature,
`content` equal to the raw payload view, and `size` the payload length
(zero with an absent payload).  Every such blob encodes to a well-formed
wire chunk. -/
def wireBlob (b : Blob) : Prop :=
  b.sig.length = 4 ∧ (∀ c ∈ b.sig, c.toNat < 128) ∧
  b.content = pvOfData b.contentRaw ∧
  (match b.contentRaw with
   | Option.none => b.size = 0
   | some bs => bs ≠ [] ∧ b.size = bs.length ∧ bs.length < 2 ^ 32)

theorem encodeAscii_ok (cs : List Char) (h : ∀ c ∈ cs, c.toNat < 128) :
    encodeAscii cs = .ok (cs.map Char.toNat) := by
  have hall : cs.all (fun c => c.toNat < 128) = true := by
    simp only [List.all_eq_true, decide_eq_true_eq]
    exact h
  simp [encodeAscii, hall]

theorem encode_wire (b : Blob) (hw : wireBlob b) :
    b.encode = .ok (b.sig.map Char.toNat ++ natToBytesBE b.size 4 ++
      b.contentRaw.getD []) := by
  obtain ⟨hlen, hascii, hcontent, hraw⟩ := hw
  have hpow : (256 : Nat) ^ 4 = 4294967296 := by norm_num
  have hpow2 : (2 : Nat) ^ 32 = 4294967296 := by norm_num
  rw [Blob.encode, encodeAscii_ok _ hascii]
  match hr : b.contentRaw with
  | Option.none =>
    rw [hr] at hraw
    simp only at hraw
    have hsz : b.size < 256 ^ 4 := by omega
    simp [toBytesUnsigned, hsz, hraw]
  | some bs =>
    rw [hr] at hraw
    obtain ⟨hne, hsz, hlt⟩ := hraw
    have hlt' : bs.length < 4294967296 := by rw [← hpow2]; exact hlt
    have hlt2 : b.size < 4294967296 := by omega
    have hpos : b.size ≠ 0 := by
      rw [hsz]
      simpa using hne
    simp [toBytesUnsigned, hlt2, hpos, hr]

theorem BFread_wire (spec : Spec) (b : Blob) (hw : wireBlob b)
    (hspec : assocLookup spec b.sig = none) (f : Nat) (rest : List Nat) :
    BFread spec (f + 1)
      (b.sig.map Char.toNat ++ natToBytesBE b.size 4 ++ b.contentRaw.getD [] ++ rest)
      = .ok (some (.blob b), rest) := by
  obtain ⟨hlen, hascii, hcontent, hraw⟩ := hw
  have hpow : (256 : Nat) ^ 4 = 4294967296 := by norm_num
  have hpow2 : (2 : Nat) ^ 32 = 4294967296 := by norm_num
  match hr : b.contentRaw with
  | some bs =>
    rw [hr] at hraw hcontent
    simp only at hraw
    obtain ⟨hne, hsz, hlt⟩ := hraw
    simp only [pvOfData] at hcontent
    simp only [Option.getD_some]
    rw [List.append_assoc, List.append_assoc]
    set sigB := b.sig.map Char.toNat with hsigB
    set szB := natToBytesBE b.size 4 with hszB
    have hmaplen : sigB.length = 4 := by simp [hsigB, hlen]
    have hszlen : szB.length = 4 := natToBytesBE_length _ _
    have hne4 : sigB ≠ [] := by
      intro hc
      rw [hc] at hmaplen
      simp at hmaplen
    have hlt' : bs.length < 4294967296 := by rw [← hpow2]; exact hlt
    have hszval : b.size < 4294967296 := by omega
    have htake1 : List.take 4 (sigB ++ (szB ++ (bs ++ rest))) = sigB := by
      rw [show (4 : Nat) = sigB.length from hmaplen.symm]
      exact List.take_left _ _
    have hdrop1 : List.drop 4 (sigB ++ (szB ++ (bs ++ rest))) = szB ++ (bs ++ rest) := by
      rw [show (4 : Nat) = sigB.length from hmaplen.symm]
      exact List.drop_left _ _
    have htake2 : List.take 4 (szB ++ (bs ++ rest)) = szB := by
      rw [show (4 : Nat) = szB.length from hszlen.symm]
      exact List.take_left _ _
    have hdrop2 : List.drop 4 (szB ++ (bs ++ rest)) = bs ++ rest := by
      rw [show (4 : Nat) = szB.length from hszlen.symm]
      exact List.drop_left _ _
    have hsize : fromBytesBE szB = b.size := by
      rw [hszB]
      exact fromBytesBE_natToBytesBE _ _ (by rw [hpow]; exact hszval)
    have hdec : utf8Decode sigB = some b.sig := utf8Decode_ascii _ hascii
    have hpos : ¬ (b.size = 0) := by
      rw [hsz]
      simpa using hne
    have htake3 : List.take b.size (bs ++ rest) = bs := by
      rw [hsz]
      exact List.take_left _ _
    have hdrop3 : List.drop b.size (bs ++ rest) = rest := by
      rw [hsz]
      exact List.drop_left _ _
    simp only [BFread, htake1, hdrop1, htake2, hdrop2, hsize, hdec, if_neg hne4,
      hpos, ne_eq, not_false_iff, ite_true, htake3, hdrop3]
    simp only [BFdispatch, mkBlob, pvOfData, hspec, Option.getD_some]
    have hb : (⟨b.sig, PyVal.bytes bs, some bs, bs.length⟩ : Blob) = b := by
      cases b with
      | mk s c r z =>
        simp only at hcontent hr hsz
        rw [hcontent, hr, hsz]
    simp only [ite_true]
    rw [hb]
  | Option.none =>
    rw [hr] at hraw hcontent
    simp only at hraw
    simp only [pvOfData] at hcontent
    simp only [Option.getD_none, List.append_nil]
    rw [List.append_assoc]
    set sigB := b.sig.map Char.toNat with hsigB
    set szB := natToBytesBE b.size 4 with hszB
    have hmaplen : sigB.length = 4 := by simp [hsigB, hlen]
    have hszlen : szB.length = 4 := natToBytesBE_length _ _
    have hne4 : sigB ≠ [] := by
      intro hc
      rw [hc] at hmaplen
      simp at hmaplen
    have hszval : b.size < 4294967296 := by omega
    have htake1 : List.take 4 (sigB ++ (szB ++ rest)) = sigB := by
      rw [show (4 : Nat) = sigB.length from hmaplen.symm]
      exact List.take_left _ _
    have hdrop1 : List.drop 4 (sigB ++ (szB ++ rest)) = szB ++ rest := by
      rw [show (4 : Nat) = sigB.length from hmaplen.symm]
      exact List.drop_left _ _
    have htake2 : List.take 4 (szB ++ rest) = szB := by
      rw [show (4 : Nat) = szB.length from hszlen.symm]
      exact List.take_left _ _
    have hdrop2 : List.drop 4 (szB ++ rest) = rest := by
      rw [show (4 : Nat) = szB.length from hszlen.symm]
      exact List.drop_left _ _
    have hsize : fromBytesBE szB = b.size := by
      rw [hszB]
      exact fromBytesBE_natToBytesBE _ _ (by rw [hpow]; exact hszval)
    have hdec : utf8Decode sigB = some b.sig := utf8Decode_ascii _ hascii
    simp only [BFread, htake1, hdrop1, htake2, hdrop2, hsize, hdec, if_neg hne4, hraw]
    simp only [BFdispatch, mkBlob, pvOfData, hspec, ne_eq, not_true_eq_false, reduceIte]
    have hb : (⟨b.sig, PyVal.none, none, 0⟩ : Blob) = b := by
      cases b with
      | mk s c r z =>
        simp only at hcontent hr hraw
        rw [hcontent, hr, hraw]
    rw [hb]

/-- `es` is the concatenation of the encodings of the blobs in `bs`. -/
inductive EncodedAll : List Blob → List Nat → Prop
  | nil : EncodedAll [] []
  | cons (b : Blob) (bs : List Blob) (e es : List Nat) :
      b.encode = .ok e → EncodedAll bs es → EncodedAll (b :: bs) (e ++ es)

theorem readCountF_wire (spec : Spec) (bs : List Blob) (es : List Nat)
    (hwf : ∀ b ∈ bs, wireBlob b ∧ assocLookup spec b.sig = none)
    (henc : EncodedAll bs es) (f : Nat) (rest : List Nat) :
    readCountF (BFread spec (f + 1)) bs.length (es ++ rest)
      = .ok (bs.map (fun b => some (.blob b)), rest) := by
  induction henc with
  | nil => simp [readCountF]
  | cons b bs' e es' he henc' ih =>
    have hwb := hwf b (by simp)
    have he2 := encode_wire b hwb.1
    rw [he] at he2
    have heq : e = b.sig.map Char.toNat ++ natToBytesBE b.size 4 ++ b.contentRaw.getD [] :=
      Except.ok.inj he2
    subst heq
    rw [List.append_assoc]
    simp only [List.length_cons, readCountF]
    rw [BFread_wire spec b hwb.1 hwb.2 f (es' ++ rest)]
    simp [ih (fun c hc => hwf c (by simp [hc]))]

theorem readUntilF_wire (spec : Spec) (msig : List Char) (bs : List Blob) (tb : Blob)
    (es et : List Nat)
    (hwf : ∀ b ∈ bs, wireBlob b ∧ assocLookup spec b.sig = none ∧ b.sig ≠ msig)
    (htb : wireBlob tb) (htspec : assocLookup spec tb.sig = none)
    (htsig : tb.sig = msig)
    (henc : EncodedAll bs es) (het : tb.encode = .ok et)
    (f g : Nat) (rest : List Nat) :
    readUntilF (BFread spec (f + 1)) msig (g + bs.length + 1) (es ++ (et ++ rest))
      = .ok (bs.map (fun b => some (.blob b)), .blob tb, rest) := by
  induction henc with
  | nil =>
    have he2 := encode_wire tb htb
    rw [het] at he2
    have heq : et = tb.sig.map Char.toNat ++ natToBytesBE tb.size 4 ++ tb.contentRaw.getD [] :=
      Except.ok.inj he2
    subst heq
    simp only [List.length_nil, List.nil_append, readUntilF]
    rw [BFread_wire spec tb htb htspec f rest]
    simp [BUnit.sig, BUnit.toBlobView, htsig]
  | cons b bs' e es' he henc' ih =>
    have hwb := hwf b (by simp)
    have he2 := encode_wire b hwb.1
    rw [he] at he2
    have heq : e = b.sig.map Char.toNat ++ natToBytesBE b.size 4 ++ b.contentRaw.getD [] :=
      Except.ok.inj he2
    subst heq
    rw [List.append_assoc]
    have ih2 := ih (fun c hc => hwf c (by simp [hc]))
    have hstep : ∀ (k : Nat) (s : List Nat),
        readUntilF (BFread spec (f + 1)) msig (k + 1) s =
          match BFread spec (f + 1) s with
          | .error e => .error e
          | .ok (Option.none, _) => .error .attributeError
          | .ok (some u, s1) =>
            if u.sig = msig then .ok ([], u, s1)
            else
              match readUntilF (BFread spec (f + 1)) msig k s1 with
              | .error e => .error e
              | .ok (cs, t, s2) => .ok (some u :: cs, t, s2) :=
      fun k s => rfl
    rw [show g + (b :: bs').length + 1 = (g + bs'.length + 1) + 1 by
      simp [List.length_cons]
      omega]
    rw [hstep (g + bs'.length + 1)]
    rw [BFread_wire spec b hwb.1 hwb.2.1 f (es' ++ (et ++ rest))]
    simp only [BUnit.sig, BUnit.toBlobView]
    rw [if_neg hwb.2.2]
    rw [ih2]
    simp

/-- The blob `BlobFile.read` builds for a chunk whose declared size equals
its available payload `hb`: content and raw bytes are the payload, or absent
when the declared size is zero. -/
def rawBlob (sg : List Char) (hb : List Nat) : Blob :=
  if hb.isEmpty then ⟨sg, PyVal.none, none, 0⟩
  else ⟨sg, PyVal.bytes hb, some hb, hb.length⟩

theorem BFread_header (spec : Spec) (sg : List Char) (hb rest : List Nat) (f : Nat)
    (hlen : sg.length = 4) (hascii : ∀ c ∈ sg, c.toNat < 128)
    (hsz : hb.length < 4294967296) :
    BFread spec (f + 1) (sg.map Char.toNat ++ natToBytesBE hb.length 4 ++ hb ++ rest)
      = BFdispatch spec (BFread spec f) f sg hb.length (rawBlob sg hb) rest := by
  have hpow : (256 : Nat) ^ 4 = 4294967296 := by norm_num
  set sigB := sg.map Char.toNat with hsigB
  set szB := natToBytesBE hb.length 4 with hszB
  have hmaplen : sigB.length = 4 := by simp [hsigB, hlen]
  have hszlen : szB.length = 4 := natToBytesBE_length _ _
  have hne4 : sigB ≠ [] := by
    intro hc
    rw [hc] at hmaplen
    simp at hmaplen
  have hsize : fromBytesBE szB = hb.length := by
    rw [hszB]
    exact fromBytesBE_natToBytesBE _ _ (by rw [hpow]; exact hsz)
  have hdec : utf8Decode sigB = some sg := utf8Decode_ascii _ hascii
  by_cases hhb : hb = []
  · subst hhb
    simp only [List.append_nil, List.length_nil]
    rw [List.append_assoc]
    have htake1 : List.take 4 (sigB ++ (szB ++ rest)) = sigB := by
      rw [show (4 : Nat) = sigB.length from hmaplen.symm]
      exact List.take_left _ _
    have hdrop1 : List.drop 4 (sigB ++ (szB ++ rest)) = szB ++ rest := by
      rw [show (4 : Nat) = sigB.length from hmaplen.symm]
      exact List.drop_left _ _
    have htake2 : List.take 4 (szB ++ rest) = szB := by
      rw [show (4 : Nat) = szB.length from hszlen.symm]
      exact List.take_left _ _
    have hdrop2 : List.drop 4 (szB ++ rest) = rest := by
      rw [show (4 : Nat) = szB.length from hszlen.symm]
      exact List.drop_left _ _
    simp only [List.length_nil] at hsize
    simp only [BFread, htake1, hdrop1, htake2, hdrop2, hsize, hdec, if_neg hne4,
      ne_eq, not_true_eq_false, reduceIte]
    simp [mkBlob, pvOfData, rawBlob]
  · rw [List.append_assoc, List.append_assoc]
    have hpos : hb.length ≠ 0 := by
      simpa using fun hc => hhb (List.length_eq_zero.mp hc)
    have htake1 : List.take 4 (sigB ++ (szB ++ (hb ++ rest))) = sigB := by
      rw [show (4 : Nat) = sigB.length from hmaplen.symm]
      exact List.take_left _ _
    have hdrop1 : List.drop 4 (sigB ++ (szB ++ (hb ++ rest))) = szB ++ (hb ++ rest) := by
      rw [show (4 : Nat) = sigB.length from hmaplen.symm]
      exact List.drop_left _ _
    have htake2 : List.take 4 (szB ++ (hb ++ rest)) = szB := by
      rw [show (4 : Nat) = szB.length from hszlen.symm]
      exact List.take_left _ _
    have hdrop2 : List.drop 4 (szB ++ (hb ++ rest)) = hb ++ rest := by
      rw [show (4 : Nat) = szB.length from hszlen.symm]
      exact List.drop_left _ _
    have htake3 : List.take hb.length (hb ++ rest) = hb := List.take_left _ _
    have hdrop3 : List.drop hb.length (hb ++ rest) = rest := List.drop_left _ _
    have hemp : hb.isEmpty = false := by
      simp [List.isEmpty_iff, hhb]
    simp only [BFread, htake1, hdrop1, htake2, hdrop2, hsize, hdec, if_neg hne4,
      hpos, ne_eq, not_false_iff, ite_true, htake3, hdrop3]
    simp [mkBlob, pvOfData, rawBlob, hemp]

theorem BUnit.encode_blob (fuel : Nat) (b : Blob) :
    BUnit.encode fuel (.blob b) = b.encode := by
  cases fuel <;> simp [BUnit.encode]

theorem BUnit.encode_group_succ (fuel : Nat) (base : Blob) (cs : List (Option BUnit))
    (d : List (List Char × Option BUnit)) (t : Option BUnit) :
    BUnit.encode (fuel + 1) (.group base cs d t) =
      (match mkBlob base.sig (.int (Int.ofNat cs.length)) none Dtype.none with
       | .error e => .error e
       | .ok header =>
         match header.encode with
         | .error e => .error e
         | .ok hB =>
           match encodeChildrenF (BUnit.encode fuel) cs with
           | .error e => .error e
           | .ok cB => .ok (hB ++ cB)) := by
  simp [BUnit.encode]

/-- C2 (code evaluated at the failing input): a `Blob` built from boolean
content with no explicit size gets `size = 4` and a four-byte payload,
because `isinstance(content, int)` is true for Python bools and the integer
branch (default width 4) runs first; the source's `elif isinstance(content,
bool)` branch — which would set size 1 — is unreachable. -/
theorem C2_bool_blob_takes_int_branch :
    mkBlob "BOOL".toList (.bool true) none Dtype.none
      = .ok ⟨"BOOL".toList, .bool true, some [0, 0, 0, 1], 4⟩ ∧
    mkBlob "BOOL".toList (.bool false) none Dtype.none
      = .ok ⟨"BOOL".toList, .bool false, some [0, 0, 0, 0], 4⟩ := by
  constructor <;> rfl

/-- C3: integers are written signed but read back unsigned.  For `0 ≤ v <
2^(8w-1)` the unsigned read of the signed encoding returns `v`; for `v = -1`
at width 4 the payload is `FF FF FF FF` and the read returns `4294967295`,
not `-1`. -/
theorem C3_signed_write_unsigned_read :
    (∀ (sg : List Char) (v : Int) (w : Nat), 0 ≤ v → v < 2 ^ (8 * w - 1) →
      (match mkBlob sg (.int v) (some w) Dtype.none with
       | .error e => (.error e : Except PyErr Int)
       | .ok b => b.getAsIntVal) = .ok v) ∧
    mkBlob "INTG".toList (.int (-1)) (some 4) Dtype.none
      = .ok ⟨"INTG".toList, .int (-1), some [255, 255, 255, 255], 4⟩ ∧
    Blob.getAsIntVal ⟨"INTG".toList, .int (-1), some [255, 255, 255, 255], 4⟩
      = .ok 4294967295 ∧
    (4294967295 : Int) ≠ -1 := by
  refine ⟨?_, rfl, rfl, by norm_num⟩
  intro sg v w h0 h1
  have hvnat : ((v.toNat : Int)) = v := Int.toNat_of_nonneg h0
  match w with
  | 0 =>
    have hv0 : v = 0 := by
      simp only [Nat.mul_zero, Nat.zero_sub, pow_zero] at h1
      omega
    subst hv0
    rfl
  | w + 1 =>
    obtain ⟨n, rfl⟩ : ∃ n : Nat, v = Int.ofNat n :=
      ⟨v.toNat, by exact_mod_cast hvnat.symm⟩
    have hn : n < 2 ^ (8 * (w + 1) - 1) := by
      exact_mod_cast (show ((n : Int)) < 2 ^ (8 * (w + 1) - 1) from h1)
    have htb : toBytesSigned (Int.ofNat n) (w + 1) = some (natToBytesBE n (w + 1)) := by
      unfold toBytesSigned
      rw [if_neg (by omega : ¬ (w + 1 = 0))]
      simp [hn]
    have hvlt : n < 256 ^ (w + 1) :=
      calc n < 2 ^ (8 * (w + 1) - 1) := hn
        _ ≤ 2 ^ (8 * (w + 1)) := Nat.pow_le_pow_right (by norm_num) (by omega)
        _ = 256 ^ (w + 1) := by
          rw [show (256 : Nat) = 2 ^ 8 from rfl, ← pow_mul]
    simp only [mkBlob, Option.getD_some, htb, reduceIte]
    simp only [Blob.getAsIntVal]
    rw [fromBytesBE_natToBytesBE _ _ hvlt]
    rfl

/-- C10: with a present payload, `getAs` succeeds for every requested type
and returns `self` unchanged, and `convert` succeeds and changes only the
`content` field — signature, size and raw payload are untouched. -/
theorem C10_getAs_convert_frame (b : Blob) (bs : List Nat)
    (h : b.contentRaw = some bs) (t : Dtype) :
    (∃ v, b.getAs t = .ok (v, b)) ∧
    (∃ v, b.convert t = .ok (v, ⟨b.sig, v, b.contentRaw, b.size⟩)) := by
  cases t <;>
    simp [Blob.getAs, Blob.convert, Blob.getAsIntVal, h]

theorem C10_witness :
    (∃ v, Blob.getAs ⟨"DATA".toList, PyVal.bytes [1, 2], some [1, 2], 2⟩ Dtype.int
        = .ok (v, ⟨"DATA".toList, PyVal.bytes [1, 2], some [1, 2], 2⟩)) ∧
    (∃ v, Blob.convert ⟨"DATA".toList, PyVal.bytes [1, 2], some [1, 2], 2⟩ Dtype.int
        = .ok (v, ⟨"DATA".toList, v, some [1, 2], 2⟩)) :=
  C10_getAs_convert_frame ⟨"DATA".toList, PyVal.bytes [1, 2], some [1, 2], 2⟩
    [1, 2] rfl Dtype.int

theorem C3_witness :
    (match mkBlob "INTG".toList (.int 300) (some 2) Dtype.none with
     | .error e => (.error e : Except PyErr Int)
     | .ok b => b.getAsIntVal) = .ok 300 :=
  C3_signed_write_unsigned_read.1 "INTG".toList 300 2 (by norm_num) (by norm_num)

/-- C1 counterexample: a stream whose chunk declares 5 payload bytes but
ends after 2 is read without any error: `read` returns a chunk holding just
the 2 available bytes (and `size` 2), instead of failing.  No
`TruncatedData` error exists anywhere in the code. -/
theorem C1_counterexample :
    BFread [] 1 ("DATA".toList.map Char.toNat ++ [0, 0, 0, 5] ++ [1, 2])
      = .ok (some (.blob ⟨"DATA".toList, PyVal.bytes [1, 2], some [1, 2], 2⟩), []) := rfl

/-- C1 (amended): when the stream ends mid-payload, `read` silently returns
a chunk whose payload is just the remaining bytes and whose `size` field is
their count — the declared size is not enforced and no error is raised. -/
theorem C1_truncated_read_is_silent (spec : Spec) (sg : List Char) (d : Nat)
    (bs : List Nat) (f : Nat)
    (hlen : sg.length = 4) (hascii : ∀ c ∈ sg, c.toNat < 128)
    (hd : d < 4294967296) (hshort : bs.length < d)
    (hspec : assocLookup spec sg = none) :
    BFread spec (f + 1) (sg.map Char.toNat ++ natToBytesBE d 4 ++ bs)
      = .ok (some (.blob ⟨sg, PyVal.bytes bs, some bs, bs.length⟩), []) := by
  have hpow : (256 : Nat) ^ 4 = 4294967296 := by norm_num
  set sigB := sg.map Char.toNat with hsigB
  set szB := natToBytesBE d 4 with hszB
  have hmaplen : sigB.length = 4 := by simp [hsigB, hlen]
  have hszlen : szB.length = 4 := natToBytesBE_length _ _
  have hne4 : sigB ≠ [] := by
    intro hc
    rw [hc] at hmaplen
    simp at hmaplen
  rw [List.append_assoc]
  have htake1 : List.take 4 (sigB ++ (szB ++ bs)) = sigB := by
    rw [show (4 : Nat) = sigB.length from hmaplen.symm]
    exact List.take_left _ _
  have hdrop1 : List.drop 4 (sigB ++ (szB ++ bs)) = szB ++ bs := by
    rw [show (4 : Nat) = sigB.length from hmaplen.symm]
    exact List.drop_left _ _
  have htake2 : List.take 4 (szB ++ bs) = szB := by
    rw [show (4 : Nat) = szB.length from hszlen.symm]
    exact List.take_left _ _
  have hdrop2 : List.drop 4 (szB ++ bs) = bs := by
    rw [show (4 : Nat) = szB.length from hszlen.symm]
    exact List.drop_left _ _
  have hsize : fromBytesBE szB = d := by
    rw [hszB]
    exact fromBytesBE_natToBytesBE _ _ (by rw [hpow]; exact hd)
  have hdec : utf8Decode sigB = some sg := utf8Decode_ascii _ hascii
  have hdpos : d ≠ 0 := by omega
  have htake3 : List.take d bs = bs := List.take_of_length_le (by omega)
  have hdrop3 : List.drop d bs = [] := List.drop_eq_nil_of_le (by omega)
  simp only [BFread, htake1, hdrop1, htake2, hdrop2, hsize, hdec, if_neg hne4,
    hdpos, ne_eq, not_false_iff, ite_true, htake3, hdrop3]
  simp [BFdispatch, mkBlob, pvOfData, hspec]

theorem C1_amended_witness :
    BFread [] 3 ("TRNC".toList.map Char.toNat ++ natToBytesBE 9 4 ++ [7])
      = .ok (some (.blob ⟨"TRNC".toList, PyVal.bytes [7], some [7], 1⟩), []) :=
  C1_truncated_read_is_silent [] "TRNC".toList 9 [7] 2 rfl (by decide)
    (by norm_num) (by norm_num) rfl

theorem toBytesSigned_ofNat (n w : Nat) (hw : w ≠ 0) :
    toBytesSigned (Int.ofNat n) w
      = (if n < 2 ^ (8 * w - 1) then some (natToBytesBE n w) else none) := by
  unfold toBytesSigned
  rw [if_neg hw]

theorem toBytesSigned_negSucc (m w : Nat) (hw : w ≠ 0) :
    toBytesSigned (Int.negSucc m) w
      = (if m < 2 ^ (8 * w - 1) then
          some (natToBytesBE (2 ^ (8 * w) - (m + 1)) w)
         else none) := by
  unfold toBytesSigned
  rw [if_neg hw]

theorem toBytesSigned_length (v : Int) (w : Nat) (bs : List Nat)
    (h : toBytesSigned v w = some bs) : bs.length = w := by
  by_cases hw : w = 0
  · subst hw
    unfold toBytesSigned at h
    rw [if_pos rfl] at h
    by_cases hv : v = 0
    · rw [if_pos hv] at h
      cases h
      rfl
    · rw [if_neg hv] at h
      cases h
  · cases v with
    | ofNat n =>
      rw [toBytesSigned_ofNat n w hw] at h
      by_cases hr : n < 2 ^ (8 * w - 1)
      · rw [if_pos hr] at h
        cases h
        exact natToBytesBE_length _ _
      · rw [if_neg hr] at h
        cases h
    | negSucc m =>
      rw [toBytesSigned_negSucc m w hw] at h
      by_cases hr : m < 2 ^ (8 * w - 1)
      · rw [if_pos hr] at h
        cases h
        exact natToBytesBE_length _ _
      · rw [if_neg hr] at h
        cases h

/-- The typed-content constructions named by the round-trip claim: absent,
boolean, integer with a caller-chosen width, text, raw bytes. -/
inductive TypedContent : PyVal → Option Nat → Prop
  | none : TypedContent PyVal.none Option.none
  | bool (b : Bool) : TypedContent (PyVal.bool b) Option.none
  | int (v : Int) (w : Nat) : TypedContent (PyVal.int v) (some w)
  | str (cs : List Char) : TypedContent (PyVal.str cs) Option.none
  | bytes (bs : List Nat) : TypedContent (PyVal.bytes bs) Option.none

/-- A `Blob` built by the constructor from typed content has the given
signature, and its `size` equals its raw payload length. -/
theorem mkBlob_typed_shape (sg : List Char) (c : PyVal) (sz? : Option Nat) (b : Blob)
    (htc : TypedContent c sz?) (hmk : mkBlob sg c sz? Dtype.none = .ok b) :
    b.sig = sg ∧ b.size = (b.contentRaw.getD []).length := by
  cases htc with
  | none =>
    simp only [mkBlob, reduceIte] at hmk
    cases hmk
    simp
  | bool bv =>
    cases bv
    · rw [show mkBlob sg (PyVal.bool false) none Dtype.none
          = .ok ⟨sg, PyVal.bool false, some [0, 0, 0, 0], 4⟩ from rfl] at hmk
      simp only [Except.ok.injEq] at hmk
      cases hmk
      simp
    · rw [show mkBlob sg (PyVal.bool true) none Dtype.none
          = .ok ⟨sg, PyVal.bool true, some [0, 0, 0, 1], 4⟩ from rfl] at hmk
      simp only [Except.ok.injEq] at hmk
      cases hmk
      simp
  | int v w =>
    cases hts : toBytesSigned v w with
    | none => simp [mkBlob, hts] at hmk
    | some bs =>
      simp only [mkBlob, Option.getD_some, hts, reduceIte] at hmk
      cases hmk
      simpa using (toBytesSigned_length v w bs hts).symm
  | str cs =>
    simp only [mkBlob, reduceIte] at hmk
    cases hmk
    simp
  | bytes bs =>
    simp only [mkBlob, reduceIte] at hmk
    cases hmk
    simp

/-- C4: a chunk built from caller-supplied typed content (absent, boolean,
integer of a representable width, text, raw bytes) decodes from its own
encoding with the same signature, the same declared size, and the same raw
payload — absent for declared size 0. -/
theorem C4_chunk_roundtrip (sg : List Char) (c : PyVal) (sz? : Option Nat) (b : Blob)
    (hlen : sg.length = 4) (hascii : ∀ c0 ∈ sg, c0.toNat < 128)
    (htc : TypedContent c sz?)
    (hmk : mkBlob sg c sz? Dtype.none = .ok b)
    (hsz : b.size < 4294967296) (f : Nat) :
    ∃ eb, b.encode = .ok eb ∧
      BFread [] (f + 1) eb
        = .ok (some (.blob ⟨sg, pvOfData (if b.size = 0 then none else b.contentRaw),
            (if b.size = 0 then none else b.contentRaw), b.size⟩), []) := by
  obtain ⟨hbsig, hbsize⟩ := mkBlob_typed_shape sg c sz? b htc hmk
  refine ⟨sg.map Char.toNat ++ natToBytesBE b.size 4 ++ b.contentRaw.getD [], ?_, ?_⟩
  · simp only [Blob.encode, hbsig, encodeAscii_ok _ hascii]
    have htbu : toBytesUnsigned b.size 4 = some (natToBytesBE b.size 4) := by
      rw [toBytesUnsigned, if_pos]
      rw [show (256 : Nat) ^ 4 = 4294967296 by norm_num]
      exact hsz
    rw [htbu]
    by_cases h0 : b.size = 0
    · have hr0 : b.contentRaw.getD [] = [] := by
        apply List.length_eq_zero.mp
        omega
      simp [h0, hr0]
    · match hr : b.contentRaw with
      | Option.none =>
        rw [hr] at hbsize
        simp at hbsize
        exact absurd hbsize h0
      | some bs =>
        simp [h0, hr]
  · have hlen2 : (b.contentRaw.getD []).length = b.size := hbsize.symm
    have hstep := BFread_header [] sg (b.contentRaw.getD []) [] f hlen hascii
      (by rw [hlen2]; exact hsz)
    rw [hlen2, List.append_nil] at hstep
    rw [hstep]
    simp only [BFdispatch, assocLookup]
    by_cases h0 : b.size = 0
    · have hr0 : b.contentRaw.getD [] = [] := by
        apply List.length_eq_zero.mp
        omega
      simp [rawBlob, hr0, h0, pvOfData]
    · match hr : b.contentRaw with
      | Option.none =>
        rw [hr] at hbsize
        simp at hbsize
        exact absurd hbsize h0
      | some bs =>
        have hbne : bs ≠ [] := by
          intro hc
          rw [hr, hc] at hbsize
          simp at hbsize
          exact h0 hbsize
        have hemp : bs.isEmpty = false := by simp [List.isEmpty_iff, hbne]
        rw [hr] at hbsize
        simp only [Option.getD_some] at hbsize
        simp [rawBlob, hemp, h0, pvOfData, hbsize, hbne]

theorem C4_witness :
    ∃ eb, Blob.encode ⟨"TEXT".toList, PyVal.str "hi".toList, some [104, 105], 2⟩
        = .ok eb ∧
      BFread [] 1 eb
        = .ok (some (.blob ⟨"TEXT".toList, pvOfData (some [104, 105]),
            some [104, 105], 2⟩), []) := by
  have h := C4_chunk_roundtrip "TEXT".toList (PyVal.str "hi".toList) none
    ⟨"TEXT".toList, PyVal.str "hi".toList, some [104, 105], 2⟩ rfl (by decide)
    (TypedContent.str "hi".toList) rfl (by norm_num) 0
  simpa using h

/-- C5: encoding a group with children `[A, B, C]` writes an opening chunk
whose content is regenerated as the live child count 3 — whatever the stored
`base` content, `dict` or `terminator` hold — followed by the children's
encodings in order; decoding those bytes with a Spec entry mapping the
group's signature to `list` yields a group whose `children` sequence is
`[A, B, C]` in the same order, and the opening chunk as read decodes to the
integer 3. -/
theorem C5_length_prefixed_group (spec : Spec) (base A B C : Blob)
    (d : List (List Char × Option BUnit)) (t : Option BUnit)
    (eA eB eC : List Nat) (f g : Nat)
    (hlen : base.sig.length = 4) (hascii : ∀ c ∈ base.sig, c.toNat < 128)
    (hspec : assocLookup spec base.sig = some (SpecVal.pytype Dtype.list))
    (hA : wireBlob A) (hAs : assocLookup spec A.sig = none)
    (hB : wireBlob B) (hBs : assocLookup spec B.sig = none)
    (hC : wireBlob C) (hCs : assocLookup spec C.sig = none)
    (heA : A.encode = .ok eA) (heB : B.encode = .ok eB) (heC : C.encode = .ok eC) :
    BUnit.encode (g + 1)
        (.group base [some (.blob A), some (.blob B), some (.blob C)] d t)
      = .ok (base.sig.map Char.toNat ++ natToBytesBE 4 4 ++ [0, 0, 0, 3] ++
          (eA ++ (eB ++ (eC ++ [])))) ∧
    BFread spec (f + 2)
      (base.sig.map Char.toNat ++ natToBytesBE 4 4 ++ [0, 0, 0, 3] ++
          (eA ++ (eB ++ (eC ++ []))))
      = .ok (some (.group ⟨base.sig, PyVal.none, none, 0⟩
          [some (.blob A), some (.blob B), some (.blob C)] [] none), []) ∧
    pyIntOfBlob ⟨base.sig, PyVal.bytes [0, 0, 0, 3], some [0, 0, 0, 3], 4⟩
      = .ok 3 := by
  have htbs : toBytesSigned (3 : Int) 4 = some [0, 0, 0, 3] := by decide
  have henc3 : mkBlob base.sig (PyVal.int (Int.ofNat 3)) none Dtype.none
      = .ok ⟨base.sig, PyVal.int (Int.ofNat 3), some [0, 0, 0, 3], 4⟩ := by
    simp [mkBlob, htbs]
  have hhdrenc : Blob.encode ⟨base.sig, PyVal.int (Int.ofNat 3), some [0, 0, 0, 3], 4⟩
      = .ok (base.sig.map Char.toNat ++ natToBytesBE 4 4 ++ [0, 0, 0, 3]) := by
    simp [Blob.encode, encodeAscii_ok _ hascii, toBytesUnsigned]
  refine ⟨?_, ?_, ?_⟩
  · rw [BUnit.encode_group_succ]
    simp only [List.length_cons, List.length_nil, Nat.zero_add, henc3, hhdrenc,
      encodeChildrenF, BUnit.encode_blob, heA, heB, heC]
  · have hstep := BFread_header spec base.sig [0, 0, 0, 3] (eA ++ (eB ++ (eC ++ []))) (f + 1)
      hlen hascii (by norm_num)
    rw [show ([0, 0, 0, 3] : List Nat).length = 4 from rfl] at hstep
    rw [hstep]
    have hcnt := readCountF_wire spec [A, B, C] (eA ++ (eB ++ (eC ++ [])))
      (by
        intro b hb
        simp only [List.mem_cons, List.not_mem_nil, or_false] at hb
        rcases hb with rfl | rfl | rfl
        · exact ⟨hA, hAs⟩
        · exact ⟨hB, hBs⟩
        · exact ⟨hC, hCs⟩)
      (EncodedAll.cons A [B, C] eA (eB ++ (eC ++ [])) heA
        (EncodedAll.cons B [C] eB (eC ++ []) heB
          (EncodedAll.cons C [] eC [] heC EncodedAll.nil)))
      f []
    rw [List.append_nil] at hcnt
    simp only [BFdispatch, hspec]
    simp only [rawBlob, show (([0, 0, 0, 3] : List Nat).isEmpty) = false from rfl,
      Bool.false_eq_true, if_false, reduceIte]
    simp only [pyIntOfBlob, Blob.getAsIntVal,
      show fromBytesBE [0, 0, 0, 3] = 3 from rfl]
    rw [show mkBlob base.sig PyVal.none none Dtype.none
        = .ok ⟨base.sig, PyVal.none, none, 0⟩ from rfl]
    rw [show (((3 : Nat) : Int)).toNat = 3 from rfl]
    rw [show ([A, B, C].length) = 3 from rfl] at hcnt
    rw [hcnt]
    simp
  · rfl

theorem C5_witness :
    BUnit.encode 1 (.group ⟨"GRP ".toList, PyVal.bytes [9], some [9], 1⟩
        [some (.blob ⟨"AAAA".toList, PyVal.bytes [1], some [1], 1⟩),
         some (.blob ⟨"BBBB".toList, PyVal.bytes [2], some [2], 1⟩),
         some (.blob ⟨"CCCC".toList, PyVal.bytes [3], some [3], 1⟩)] [] none)
      = .ok ("GRP ".toList.map Char.toNat ++ natToBytesBE 4 4 ++ [0, 0, 0, 3] ++
          ([65, 65, 65, 65, 0, 0, 0, 1, 1] ++ ([66, 66, 66, 66, 0, 0, 0, 1, 2] ++
            ([67, 67, 67, 67, 0, 0, 0, 1, 3] ++ [])))) ∧
    BFread [("GRP ".toList, SpecVal.pytype Dtype.list)] 2
      ("GRP ".toList.map Char.toNat ++ natToBytesBE 4 4 ++ [0, 0, 0, 3] ++
          ([65, 65, 65, 65, 0, 0, 0, 1, 1] ++ ([66, 66, 66, 66, 0, 0, 0, 1, 2] ++
            ([67, 67, 67, 67, 0, 0, 0, 1, 3] ++ []))))
      = .ok (some (.group ⟨"GRP ".toList, PyVal.none, none, 0⟩
          [some (.blob ⟨"AAAA".toList, PyVal.bytes [1], some [1], 1⟩),
           some (.blob ⟨"BBBB".toList, PyVal.bytes [2], some [2], 1⟩),
           some (.blob ⟨"CCCC".toList, PyVal.bytes [3], some [3], 1⟩)] [] none), []) ∧
    pyIntOfBlob ⟨"GRP ".toList, PyVal.bytes [0, 0, 0, 3], some [0, 0, 0, 3], 4⟩
      = .ok 3 :=
  C5_length_prefixed_group [("GRP ".toList, SpecVal.pytype Dtype.list)]
    ⟨"GRP ".toList, PyVal.bytes [9], some [9], 1⟩
    ⟨"AAAA".toList, PyVal.bytes [1], some [1], 1⟩
    ⟨"BBBB".toList, PyVal.bytes [2], some [2], 1⟩
    ⟨"CCCC".toList, PyVal.bytes [3], some [3], 1⟩
    [] none
    [65, 65, 65, 65, 0, 0, 0, 1, 1] [66, 66, 66, 66, 0, 0, 0, 1, 2]
    [67, 67, 67, 67, 0, 0, 0, 1, 3] 0 0
    rfl (by decide) rfl
    ⟨rfl, by decide, rfl, ⟨by decide, rfl, by norm_num⟩⟩ rfl
    ⟨rfl, by decide, rfl, ⟨by decide, rfl, by norm_num⟩⟩ rfl
    ⟨rfl, by decide, rfl, ⟨by decide, rfl, by norm_num⟩⟩ rfl
    rfl rfl rfl

/-- C6: with a Spec entry mapping a signature to a literal integer `n`, a
stream carrying that signature decodes to a group of exactly `n` children
taken by `n` recursive reads — `n` comes from the Spec while the opening
chunk's payload `hb` is arbitrary — and the opening chunk's raw content is
preserved verbatim in the group's header (`rawBlob gsig hb`), not
reinterpreted as a count. -/
theorem C6_fixed_count_group (spec : Spec) (gsig : List Char) (hb : List Nat)
    (bs : List Blob) (es : List Nat) (n f : Nat) (rest : List Nat)
    (hlen : gsig.length = 4) (hascii : ∀ c ∈ gsig, c.toNat < 128)
    (hsz : hb.length < 4294967296)
    (hspec : assocLookup spec gsig = some (SpecVal.count n))
    (hn : bs.length = n)
    (hwf : ∀ b ∈ bs, wireBlob b ∧ assocLookup spec b.sig = none)
    (henc : EncodedAll bs es) :
    BFread spec (f + 2)
        (gsig.map Char.toNat ++ natToBytesBE hb.length 4 ++ hb ++ (es ++ rest))
      = .ok (some (.group (rawBlob gsig hb)
          (bs.map (fun b => some (.blob b))) [] none), rest) := by
  have hstep := BFread_header spec gsig hb (es ++ rest) (f + 1) hlen hascii hsz
  rw [hstep]
  have hcnt := readCountF_wire spec bs es hwf henc f rest
  simp only [BFdispatch, hspec]
  by_cases hhb : hb = []
  · subst hhb
    rw [show rawBlob gsig [] = ⟨gsig, PyVal.none, none, 0⟩ from rfl]
    rw [show mkBlob gsig PyVal.none none Dtype.none
        = .ok ⟨gsig, PyVal.none, none, 0⟩ from rfl]
    rw [hn] at hcnt
    rw [hcnt]
  · have hemp : hb.isEmpty = false := by simp [List.isEmpty_iff, hhb]
    simp only [rawBlob, hemp, Bool.false_eq_true, if_false, reduceIte]
    simp only [mkBlob, Option.getD_some]
    rw [hn] at hcnt
    simp [hcnt]

theorem C6_witness :
    BFread [("PAIR".toList, SpecVal.count 2)] 2
        ("PAIR".toList.map Char.toNat ++ natToBytesBE 1 4 ++ [255] ++
          (([88, 88, 88, 88, 0, 0, 0, 1, 5] ++ ([89, 89, 89, 89, 0, 0, 0, 1, 6] ++ []))
            ++ []))
      = .ok (some (.group (rawBlob "PAIR".toList [255])
          (([⟨"XXXX".toList, PyVal.bytes [5], some [5], 1⟩,
             ⟨"YYYY".toList, PyVal.bytes [6], some [6], 1⟩] : List Blob).map
            (fun b => some (.blob b))) [] none), []) :=
  C6_fixed_count_group [("PAIR".toList, SpecVal.count 2)] "PAIR".toList [255]
    [⟨"XXXX".toList, PyVal.bytes [5], some [5], 1⟩,
     ⟨"YYYY".toList, PyVal.bytes [6], some [6], 1⟩]
    ([88, 88, 88, 88, 0, 0, 0, 1, 5] ++ ([89, 89, 89, 89, 0, 0, 0, 1, 6] ++ []))
    2 0 [] rfl (by decide) (by norm_num) rfl rfl
    (by
      intro b hb
      simp only [List.mem_cons, List.not_mem_nil, or_false] at hb
      rcases hb with rfl | rfl
      · exact ⟨⟨rfl, by decide, rfl, ⟨by decide, rfl, by norm_num⟩⟩, rfl⟩
      · exact ⟨⟨rfl, by decide, rfl, ⟨by decide, rfl, by norm_num⟩⟩, rfl⟩)
    (EncodedAll.cons _ _ _ _ rfl (EncodedAll.cons _ _ _ _ rfl EncodedAll.nil))

/-- C7: with a Spec entry mapping a signature to a marker signature,
decoding appends units to the group's children until the first unit whose
signature equals the marker; that unit becomes the `terminator` and is not
part of `children`: a stream of group header, `X`, `Y`, then the marker
chunk `T` decodes to children `[X, Y]` with terminator `T`.  The header
payload `hb` is preserved verbatim in the group's header. -/
theorem C7_terminator_group (spec : Spec) (gsig msig : List Char) (hb : List Nat)
    (X Y T : Blob) (eX eY eT : List Nat) (f : Nat) (rest : List Nat)
    (hlen : gsig.length = 4) (hascii : ∀ c ∈ gsig, c.toNat < 128)
    (hsz : hb.length < 4294967296)
    (hspec : assocLookup spec gsig = some (SpecVal.marker msig))
    (hX : wireBlob X) (hXs : assocLookup spec X.sig = none) (hXm : X.sig ≠ msig)
    (hY : wireBlob Y) (hYs : assocLookup spec Y.sig = none) (hYm : Y.sig ≠ msig)
    (hT : wireBlob T) (hTs : assocLookup spec T.sig = none) (hTm : T.sig = msig)
    (heX : X.encode = .ok eX) (heY : Y.encode = .ok eY) (heT : T.encode = .ok eT) :
    BFread spec (f + 5)
        (gsig.map Char.toNat ++ natToBytesBE hb.length 4 ++ hb ++
          (eX ++ (eY ++ (eT ++ rest))))
      = .ok (some (.group (rawBlob gsig hb) [some (.blob X), some (.blob Y)]
          [] (some (.blob T))), rest) := by
  have hstep := BFread_header spec gsig hb (eX ++ (eY ++ (eT ++ rest))) (f + 4)
    hlen hascii hsz
  rw [hstep]
  have huntil := readUntilF_wire spec msig [X, Y] T (eX ++ (eY ++ [])) eT
    (by
      intro b hb0
      simp only [List.mem_cons, List.not_mem_nil, or_false] at hb0
      rcases hb0 with rfl | rfl
      · exact ⟨hX, hXs, hXm⟩
      · exact ⟨hY, hYs, hYm⟩)
    hT hTs hTm
    (EncodedAll.cons X [Y] eX (eY ++ []) heX
      (EncodedAll.cons Y [] eY [] heY EncodedAll.nil))
    heT (f + 3) (f + 1) rest
  have e1 : f + 1 + ([X, Y] : List Blob).length + 1 = f + 4 := by simp
  rw [e1] at huntil
  have e2 : (eX ++ (eY ++ [])) ++ (eT ++ rest) = eX ++ (eY ++ (eT ++ rest)) := by simp
  rw [e2] at huntil
  simp only [BFdispatch, hspec]
  by_cases hhb : hb = []
  · subst hhb
    rw [show rawBlob gsig [] = ⟨gsig, PyVal.none, none, 0⟩ from rfl]
    rw [show mkBlob gsig PyVal.none none Dtype.none
        = .ok ⟨gsig, PyVal.none, none, 0⟩ from rfl]
    simp [huntil]
  · have hemp : hb.isEmpty = false := by simp [List.isEmpty_iff, hhb]
    simp only [rawBlob, hemp, Bool.false_eq_true, if_false, reduceIte]
    simp only [mkBlob, Option.getD_some]
    simp [huntil]

theorem C7_witness :
    BFread [("LIST".toList, SpecVal.marker "END ".toList)] 5
        ("LIST".toList.map Char.toNat ++ natToBytesBE ([] : List Nat).length 4 ++ [] ++
          ([88, 88, 88, 88, 0, 0, 0, 1, 5] ++ ([89, 89, 89, 89, 0, 0, 0, 1, 6] ++
            ([69, 78, 68, 32, 0, 0, 0, 0] ++ []))))
      = .ok (some (.group (rawBlob "LIST".toList [])
          [some (.blob ⟨"XXXX".toList, PyVal.bytes [5], some [5], 1⟩),
           some (.blob ⟨"YYYY".toList, PyVal.bytes [6], some [6], 1⟩)]
          [] (some (.blob ⟨"END ".toList, PyVal.none, none, 0⟩))), []) :=
  C7_terminator_group [("LIST".toList, SpecVal.marker "END ".toList)]
    "LIST".toList "END ".toList []
    ⟨"XXXX".toList, PyVal.bytes [5], some [5], 1⟩
    ⟨"YYYY".toList, PyVal.bytes [6], some [6], 1⟩
    ⟨"END ".toList, PyVal.none, none, 0⟩
    [88, 88, 88, 88, 0, 0, 0, 1, 5] [89, 89, 89, 89, 0, 0, 0, 1, 6]
    [69, 78, 68, 32, 0, 0, 0, 0] 0 []
    rfl (by decide) (by norm_num) rfl
    ⟨rfl, by decide, rfl, ⟨by decide, rfl, by norm_num⟩⟩ rfl (by decide)
    ⟨rfl, by decide, rfl, ⟨by decide, rfl, by norm_num⟩⟩ rfl (by decide)
    ⟨rfl, by decide, rfl, rfl⟩ rfl rfl
    rfl rfl rfl

/-- C8: opening a readable stream with header negotiation: (1) a first
chunk whose signature is not the magic `BLOB` raises
`FileTypeError 'Not a blob file'`; (2) a magic chunk whose decoded content
is strictly below the requested `blobver` raises
`VersionError 'Old blob version'`; (3) a second chunk whose signature is
not the expected `filetype` raises `FileTypeError 'Wrong file type'`; (4) a
file-type chunk whose decoded content is strictly above the requested
`version` raises `VersionError 'Old file version'` — the two comparisons
deliberately point in opposite directions. -/
theorem C8_header_negotiation :
    (∀ (b0 : Blob) (e0 : List Nat) (ft : List Char) (ver bver : Option Int)
        (f : Nat) (rest : List Nat),
      wireBlob b0 → b0.sig ≠ "BLOB".toList → b0.encode = .ok e0 →
      openRead [] ft ver bver (f + 1) (e0 ++ rest)
        = .error (.fileTypeError .notABlobFile)) ∧
    (∀ (hb : List Nat) (bv : Int) (ft : List Char) (ver : Option Int)
        (f : Nat) (rest : List Nat),
      hb ≠ [] → hb.length < 4294967296 → ((fromBytesBE hb : Nat) : Int) < bv →
      openRead [] ft ver (some bv) (f + 1)
        ("BLOB".toList.map Char.toNat ++ natToBytesBE hb.length 4 ++ hb ++ rest)
        = .error (.versionError .oldBlobVersion)) ∧
    (∀ (b1 : Blob) (e1 : List Nat) (ft : List Char) (ver bver : Option Int)
        (f : Nat) (rest : List Nat),
      wireBlob b1 → b1.sig ≠ ft → b1.encode = .ok e1 →
      openRead [] ft ver bver (f + 1)
        (("BLOB".toList.map Char.toNat ++ natToBytesBE 0 4) ++ (e1 ++ rest))
        = .error (.fileTypeError .wrongFileType)) ∧
    (∀ (hb : List Nat) (v0 : Int) (ft : List Char) (bver : Option Int)
        (f : Nat) (rest : List Nat),
      ft.length = 4 → (∀ c ∈ ft, c.toNat < 128) →
      hb ≠ [] → hb.length < 4294967296 → ((fromBytesBE hb : Nat) : Int) > v0 →
      openRead [] ft (some v0) bver (f + 1)
        (("BLOB".toList.map Char.toNat ++ natToBytesBE 0 4) ++
          (ft.map Char.toNat ++ natToBytesBE hb.length 4 ++ hb ++ rest))
        = .error (.versionError .oldFileVersion)) := by
  have hmagic : ∀ (f : Nat) (rest : List Nat),
      BFread [] (f + 1) (("BLOB".toList.map Char.toNat ++ natToBytesBE 0 4) ++ rest)
        = .ok (some (.blob ⟨"BLOB".toList, PyVal.none, none, 0⟩), rest) := by
    intro f rest
    have h := BFread_wire [] ⟨"BLOB".toList, PyVal.none, none, 0⟩
      ⟨rfl, by decide, rfl, rfl⟩ rfl f rest
    simpa using h
  refine ⟨?_, ?_, ?_, ?_⟩
  · intro b0 e0 ft ver bver f rest hw hsig he
    have heq := encode_wire b0 hw
    rw [he] at heq
    have heq2 := Except.ok.inj heq
    subst heq2
    rw [openRead, BFread_wire [] b0 hw rfl f rest]
    simp only [BUnit.sig, BUnit.toBlobView]
    rw [if_pos hsig]
  · intro hb bv ft ver f rest hne hsz hlt
    have hread := BFread_header [] "BLOB".toList hb rest f rfl (by decide) hsz
    rw [openRead, hread]
    have hemp : hb.isEmpty = false := by simp [List.isEmpty_iff, hne]
    simp only [BFdispatch, assocLookup, rawBlob, hemp, Bool.false_eq_true, if_false,
      reduceIte]
    simp only [BUnit.sig, BUnit.toBlobView, BUnit.content]
    rw [if_neg (by simp)]
    simp only [pyTruthy, Blob.getAsIntVal]
    rw [if_pos (by simp [List.isEmpty_iff, hne])]
    rw [if_pos hlt]
  · intro b1 e1 ft ver bver f rest hw hsig he
    have heq := encode_wire b1 hw
    rw [he] at heq
    have heq2 := Except.ok.inj heq
    subst heq2
    rw [openRead, hmagic f (b1.sig.map Char.toNat ++ natToBytesBE b1.size 4 ++
      b1.contentRaw.getD [] ++ rest)]
    simp only [BUnit.sig, BUnit.toBlobView, BUnit.content]
    rw [if_neg (by simp)]
    cases bver <;>
    · try simp only [pyTruthy, Bool.false_eq_true, if_false, reduceIte]
      rw [BFread_wire [] b1 hw rfl f rest]
      simp only [BUnit.sig, BUnit.toBlobView]
      rw [if_pos hsig]
  · intro hb v0 ft bver f rest hftlen hftascii hne hsz hgt
    rw [openRead, hmagic f (ft.map Char.toNat ++ natToBytesBE hb.length 4 ++ hb ++ rest)]
    simp only [BUnit.sig, BUnit.toBlobView, BUnit.content]
    rw [if_neg (by simp)]
    have hread := BFread_header [] ft hb rest f hftlen hftascii hsz
    have hemp : hb.isEmpty = false := by simp [List.isEmpty_iff, hne]
    cases bver <;>
    · try simp only [pyTruthy, Bool.false_eq_true, if_false, reduceIte]
      rw [hread]
      try simp only [BFdispatch, assocLookup, rawBlob, hemp, Bool.false_eq_true,
        if_false, reduceIte]
      try simp only [BUnit.sig, BUnit.toBlobView, BUnit.content]
      rw [if_neg (by simp)]
      try simp only [pyTruthy, Blob.getAsIntVal]
      rw [if_pos (by simp [List.isEmpty_iff, hne])]
      rw [if_pos hgt]

theorem C8_witness :
    openRead [] "TYPE".toList none none 1 ([88, 88, 88, 88, 0, 0, 0, 1, 1] ++ [])
      = .error (.fileTypeError .notABlobFile) ∧
    openRead [] "TYPE".toList none (some 5) 1
        ("BLOB".toList.map Char.toNat ++ natToBytesBE ([0, 0, 0, 1] : List Nat).length 4 ++
          [0, 0, 0, 1] ++ [])
      = .error (.versionError .oldBlobVersion) ∧
    openRead [] "TYPE".toList none none 1
        (("BLOB".toList.map Char.toNat ++ natToBytesBE 0 4) ++
          ([88, 88, 88, 88, 0, 0, 0, 1, 1] ++ []))
      = .error (.fileTypeError .wrongFileType) ∧
    openRead [] "TYPE".toList (some 2) none 1
        (("BLOB".toList.map Char.toNat ++ natToBytesBE 0 4) ++
          ("TYPE".toList.map Char.toNat ++ natToBytesBE ([0, 0, 0, 9] : List Nat).length 4 ++
            [0, 0, 0, 9] ++ []))
      = .error (.versionError .oldFileVersion) :=
  ⟨C8_header_negotiation.1 ⟨"XXXX".toList, PyVal.bytes [1], some [1], 1⟩
      [88, 88, 88, 88, 0, 0, 0, 1, 1] "TYPE".toList none none 0 []
      ⟨rfl, by decide, rfl, ⟨by decide, rfl, by norm_num⟩⟩ (by decide) rfl,
   C8_header_negotiation.2.1 [0, 0, 0, 1] 5 "TYPE".toList none 0 []
      (by decide) (by norm_num) (by decide),
   C8_header_negotiation.2.2.1 ⟨"XXXX".toList, PyVal.bytes [1], some [1], 1⟩
      [88, 88, 88, 88, 0, 0, 0, 1, 1] "TYPE".toList none none 0 []
      ⟨rfl, by decide, rfl, ⟨by decide, rfl, by norm_num⟩⟩ (by decide) rfl,
   C8_header_negotiation.2.2.2 [0, 0, 0, 9] 2 "TYPE".toList none 0 []
      rfl (by decide) (by decide) (by norm_num) (by decide)⟩

/-! ## Lemmas about the lazy signature dictionary -/

theorem assocLookup_append {β : Type} (d1 d2 : List (List Char × β)) (k : List Char) :
    assocLookup (d1 ++ d2) k =
      (match assocLookup d1 k with
       | some v => some v
       | Option.none => assocLookup d2 k) := by
  induction d1 with
  | nil => simp [assocLookup]
  | cons p rest ih =>
    obtain ⟨k0, v0⟩ := p
    by_cases h : k0 = k
    · simp [assocLookup, h]
    · simp [assocLookup, h, ih]

theorem assocLookup_setdefault {β : Type} (d : List (List Char × β))
    (k0 k : List Char) (v : β) :
    assocLookup (dictSetdefault d k0 v) k =
      (match assocLookup d k with
       | some w => some w
       | Option.none => if k0 = k then some v else none) := by
  unfold dictSetdefault
  by_cases h : (assocLookup d k0).isSome
  · rw [if_pos h]
    cases hk : assocLookup d k with
    | some w => rfl
    | none =>
      by_cases hkk : k0 = k
      · subst hkk
        rw [hk] at h
        simp at h
      · simp [hkk]
  · rw [if_neg h]
    rw [assocLookup_append]
    cases hk : assocLookup d k with
    | some w => rfl
    | none => simp [assocLookup]

/-- The single scan `genDict` performs over the (non-`None`) children,
keeping the first child seen for each signature. -/
def dictScan (us : List BUnit) (acc : List (List Char × Option BUnit)) :
    List (List Char × Option BUnit) :=
  us.foldl (fun d u => dictSetdefault d u.sig (some u)) acc

theorem buildDict_map_some (us : List BUnit) (acc : List (List Char × Option BUnit)) :
    buildDict (us.map (fun u => some u)) acc = .ok (dictScan us acc) := by
  induction us generalizing acc with
  | nil => simp [buildDict, dictScan]
  | cons u rest ih =>
    simp only [List.map_cons, buildDict]
    rw [show dictScan (u :: rest) acc
        = dictScan rest (dictSetdefault acc u.sig (some u)) from rfl]
    exact ih _

theorem assocLookup_dictScan (us : List BUnit) (acc : List (List Char × Option BUnit))
    (k : List Char) :
    assocLookup (dictScan us acc) k =
      (match assocLookup acc k with
       | some w => some w
       | Option.none =>
         (us.find? (fun u => decide (u.sig = k))).map (fun u => some u)) := by
  induction us generalizing acc with
  | nil => cases h : assocLookup acc k <;> simp [dictScan, h, List.find?]
  | cons u rest ih =>
    rw [show dictScan (u :: rest) acc
        = dictScan rest (dictSetdefault acc u.sig (some u)) from rfl]
    rw [ih, assocLookup_setdefault]
    cases h : assocLookup acc k with
    | some w => simp
    | none =>
      by_cases hs : u.sig = k
      · rw [List.find?_cons_of_pos _ (by simp [hs])]
        simp [hs]
      · rw [List.find?_cons_of_neg _ (by simp [hs])]
        simp [hs]

theorem dictScan_length (us : List BUnit) (acc : List (List Char × Option BUnit)) :
    acc.length ≤ (dictScan us acc).length := by
  induction us generalizing acc with
  | nil => simp [dictScan]
  | cons u rest ih =>
    rw [show dictScan (u :: rest) acc
        = dictScan rest (dictSetdefault acc u.sig (some u)) from rfl]
    refine le_trans ?_ (ih _)
    unfold dictSetdefault
    split
    · exact le_refl _
    · simp

/-- C9: the group's signature index is built by one scan of `children`
keeping only the first child per signature (later duplicates shadowed); once
non-empty it is never rebuilt, so after building it, appending a child with
a previously-unseen signature directly to `children` makes signature-keyed
lookup miss it (membership is false, string subscripting raises `KeyError`)
until the index is explicitly cleared, while integer-indexed access still
reflects the live children sequence. -/
theorem C9_signature_index (base : Blob) (us : List BUnit) (t : Option BUnit) :
    (BUnit.genDict (.group base (us.map (fun u => some u)) [] t)
       = .ok (.group base (us.map (fun u => some u)) (dictScan us []) t)) ∧
    (∀ k, assocLookup (dictScan us []) k
       = (us.find? (fun u => decide (u.sig = k))).map (fun u => some u)) ∧
    (∀ (p : List Char × Option BUnit) (d : List (List Char × Option BUnit))
        (cs : List (Option BUnit)),
       BUnit.genDict (.group base cs (p :: d) t) = .ok (.group base cs (p :: d) t)) ∧
    (∀ (c : BUnit) (k : List Char), us ≠ [] → c.sig = k → (∀ u ∈ us, u.sig ≠ k) →
      (BUnit.pyContains
          (BUnit.appendChild (.group base (us.map (fun u => some u)) (dictScan us []) t)
            (some c)) k
        = .ok (false, .group base (us.map (fun u => some u) ++ [some c])
            (dictScan us []) t)) ∧
      (BUnit.getItemSig
          (BUnit.appendChild (.group base (us.map (fun u => some u)) (dictScan us []) t)
            (some c)) k
        = .error .keyError) ∧
      (BUnit.getItemIdx
          (BUnit.appendChild (.group base (us.map (fun u => some u)) (dictScan us []) t)
            (some c)) us.length
        = .ok (some c, .group base (us.map (fun u => some u) ++ [some c])
            (dictScan us []) t)) ∧
      (BUnit.pyContains
          (BUnit.clearDict
            (BUnit.appendChild (.group base (us.map (fun u => some u)) (dictScan us []) t)
              (some c))) k
        = .ok (true, .group base (us.map (fun u => some u) ++ [some c])
            (dictScan (us ++ [c]) []) t))) := by
  refine ⟨?_, ?_, ?_, ?_⟩
  · simp [BUnit.genDict, buildDict_map_some]
  · intro k
    rw [assocLookup_dictScan]
    rfl
  · intro p d cs
    rfl
  · intro c k hne hcs hmiss
    have hfind : us.find? (fun u => decide (u.sig = k)) = none := by
      rw [List.find?_eq_none]
      intro u hu
      simp [hmiss u hu]
    obtain ⟨p, d', hD⟩ : ∃ p d', dictScan us [] = p :: d' := by
      cases hsc : dictScan us [] with
      | nil =>
        exfalso
        match us, hne with
        | u :: us', _ =>
          have := dictScan_length us' [(u.sig, some u)]
          rw [show dictScan (u :: us') []
              = dictScan us' (dictSetdefault [] u.sig (some u)) from rfl] at hsc
          rw [show dictSetdefault ([] : List (List Char × Option BUnit)) u.sig (some u)
              = [(u.sig, some u)] from rfl] at hsc
          rw [hsc] at this
          simp at this
      | cons p d' => exact ⟨p, d', rfl⟩
    have hlook : assocLookup (dictScan us []) k = none := by
      rw [assocLookup_dictScan, hfind]
      rfl
    have happ : BUnit.appendChild
        (.group base (us.map (fun u => some u)) (dictScan us []) t) (some c)
        = .group base (us.map (fun u => some u) ++ [some c]) (dictScan us []) t := rfl
    have hgen : BUnit.genDict
        (.group base (us.map (fun u => some u) ++ [some c]) (dictScan us []) t)
        = .ok (.group base (us.map (fun u => some u) ++ [some c]) (dictScan us []) t) := by
      rw [hD]
      rfl
    refine ⟨?_, ?_, ?_, ?_⟩
    · rw [happ]
      rw [BUnit.pyContains, hgen]
      simp [hlook]
    · rw [happ]
      rw [BUnit.getItemSig, hgen]
      simp [hlook]
    · rw [happ]
      rw [BUnit.getItemIdx]
      rw [show us.length = (us.map (fun u => some (u : BUnit))).length by simp]
      rw [List.get?_concat_length]
    · have hmap : us.map (fun u => some (u : BUnit)) ++ [some c]
          = (us ++ [c]).map (fun u => some u) := by simp
      have hgen3 : BUnit.genDict (.group base ((us ++ [c]).map (fun u => some u)) [] t)
          = .ok (.group base ((us ++ [c]).map (fun u => some u))
              (dictScan (us ++ [c]) []) t) := by
        simp only [BUnit.genDict]
        rw [buildDict_map_some]
      have hlook2 : assocLookup (dictScan (us ++ [c]) []) k = some (some c) := by
        rw [assocLookup_dictScan]
        rw [List.find?_append, hfind]
        rw [List.find?_cons_of_pos _ (by simp [hcs])]
        rfl
      rw [happ]
      rw [show BUnit.clearDict
          (.group base (us.map (fun u => some u) ++ [some c]) (dictScan us []) t)
          = .group base (us.map (fun u => some u) ++ [some c]) [] t from rfl]
      rw [hmap]
      rw [BUnit.pyContains, hgen3]
      simp only [hlook2, Option.isSome_some]

/-- Witness for C9 at a concrete one-child group: appending a child with the
fresh signature `"B"` after the index was built leaves lookup stale until
`clearDict`. -/
theorem C9_witness :
    (BUnit.pyContains
        (BUnit.appendChild
          (.group (rawBlob (['L']) []) (([BUnit.blob (rawBlob (['A']) [1])]).map (fun u => some u))
            (dictScan [BUnit.blob (rawBlob (['A']) [1])] []) none)
          (some (BUnit.blob (rawBlob (['B']) [2])))) (['B'])
      = .ok (false, .group (rawBlob (['L']) [])
          (([BUnit.blob (rawBlob (['A']) [1])]).map (fun u => some u)
            ++ [some (BUnit.blob (rawBlob (['B']) [2]))])
          (dictScan [BUnit.blob (rawBlob (['A']) [1])] []) none)) ∧
    (BUnit.getItemSig
        (BUnit.appendChild
          (.group (rawBlob (['L']) []) (([BUnit.blob (rawBlob (['A']) [1])]).map (fun u => some u))
            (dictScan [BUnit.blob (rawBlob (['A']) [1])] []) none)
          (some (BUnit.blob (rawBlob (['B']) [2])))) (['B'])
      = .error .keyError) ∧
    (BUnit.getItemIdx
        (BUnit.appendChild
          (.group (rawBlob (['L']) []) (([BUnit.blob (rawBlob (['A']) [1])]).map (fun u => some u))
            (dictScan [BUnit.blob (rawBlob (['A']) [1])] []) none)
          (some (BUnit.blob (rawBlob (['B']) [2]))))
        ([BUnit.blob (rawBlob (['A']) [1])]).length
      = .ok (some (BUnit.blob (rawBlob (['B']) [2])), .group (rawBlob (['L']) [])
          (([BUnit.blob (rawBlob (['A']) [1])]).map (fun u => some u)
            ++ [some (BUnit.blob (rawBlob (['B']) [2]))])
          (dictScan [BUnit.blob (rawBlob (['A']) [1])] []) none)) ∧
    (BUnit.pyContains
        (BUnit.clearDict
          (BUnit.appendChild
            (.group (rawBlob (['L']) []) (([BUnit.blob (rawBlob (['A']) [1])]).map (fun u => some u))
              (dictScan [BUnit.blob (rawBlob (['A']) [1])] []) none)
            (some (BUnit.blob (rawBlob (['B']) [2]))))) (['B'])
      = .ok (true, .group (rawBlob (['L']) [])
          (([BUnit.blob (rawBlob (['A']) [1])]).map (fun u => some u)
            ++ [some (BUnit.blob (rawBlob (['B']) [2]))])
          (dictScan ([BUnit.blob (rawBlob (['A']) [1])] ++ [BUnit.blob (rawBlob (['B']) [2])]) []) none)) :=
  (C9_signature_index (rawBlob (['L']) []) [BUnit.blob (rawBlob (['A']) [1])] none).2.2.2
    (BUnit.blob (rawBlob (['B']) [2])) (['B'])
    (List.cons_ne_nil _ _) rfl (by decide)
